import Mathlib

/-!
Verification of the Jenkins-pipeline conversion engine of this repository.

The Python sources are shallowly embedded as executable Lean functions:

* `GH.*` embeds `src/convert_jenkinsfile.py` (toolchain classification and the
  fixed-stage GitHub-Actions step sequence of `parse_jenkinsfile`).
* `Batch.*` embeds `src/tools/jenkins_batch_to_azuredevops.py`.
* `AutoConv.*` embeds `src/tools/auto_convert_repo_to_ado_yaml.py`.
* Functions whose Python source is byte-identical in the two tool files
  (comment stripping, block extraction, environment/agent parsing, the stage
  and step regular expressions) are defined once and shared.

Python regular-expression searches are embedded as explicit character-list
scanners.  Every regex used by the sources is deterministic in the sense that
greedy maximal-munch matching never needs to backtrack (each quantified class
is disjoint from the literal that follows it), so the scanners below implement
maximal munch; `re.search`/`finditer` position semantics (leftmost match,
resume at match end) are implemented by the `*Search*`/`*FindAux` drivers.
Character classes follow the ASCII ranges the sources' patterns use.
-/

/-- Single-quote character, written via its code point. -/
def squote : Char := Char.ofNat 39

/-- Double-quote character. -/
def dquote : Char := Char.ofNat 34

/-- Opening curly brace character. -/
def lbrace : Char := Char.ofNat 123

/-- Closing curly brace character. -/
def rbrace : Char := Char.ofNat 125

/-- Newline character. -/
def nlChar : Char := Char.ofNat 10

/-- Carriage-return character. -/
def crChar : Char := Char.ofNat 13

/-- Backslash character. -/
def bslash : Char := Char.ofNat 92

/-- Whitespace class of the Python regex `\s` and of `str.strip` (ASCII part). -/
def pyIsSpace (c : Char) : Bool :=
  c == ' ' || c.toNat == 9 || c.toNat == 10 || c.toNat == 13 ||
    c.toNat == 11 || c.toNat == 12

/-- The full line-boundary set of Python's `str.splitlines()`: LF, VT, FF, CR,
FS, GS, RS, NEL, LINE SEPARATOR and PARAGRAPH SEPARATOR (CR LF counts as one
boundary and is handled separately by the scanner). -/
def isLineBound (c : Char) : Bool :=
  c.toNat == 10 || c.toNat == 11 || c.toNat == 12 || c.toNat == 13 ||
    c.toNat == 28 || c.toNat == 29 || c.toNat == 30 || c.toNat == 133 ||
    c.toNat == 8232 || c.toNat == 8233

/-- Quote class `['\"]` used by all quoted-literal regexes in the sources. -/
def isQuote (c : Char) : Bool := c == squote || c == dquote

/-- Identifier start class `[A-Za-z_]` of the environment-assignment regex. -/
def identStart (c : Char) : Bool := c.isAlpha || c == '_'

/-- Identifier continuation class `[A-Za-z0-9_]`. -/
def identCont (c : Char) : Bool := c.isAlpha || c.isDigit || c == '_'

/-- Consume the literal `p` from the front of `l`; `some` of the remainder on
success, `none` otherwise. -/
def dropLit : List Char → List Char → Option (List Char)
  | [], l => some l
  | _ :: _, [] => none
  | c :: cs, x :: xs => if x == c then dropLit cs xs else none

/-- Substring occurrence test on character lists: does `n` occur as a prefix of
some suffix of the second argument?  Embeds Python's `in` operator. -/
def substrAux (n : List Char) : List Char → Bool
  | [] => n.isPrefixOf []
  | c :: rest => n.isPrefixOf (c :: rest) || substrAux n rest

/-- Python's substring operator `needle in hay`. -/
def containsSubstr (hay needle : String) : Bool := substrAux needle.data hay.data

/-- Python's `str.strip()` restricted to the whitespace class above. -/
def pyStrip (s : String) : String :=
  ⟨((s.data.dropWhile pyIsSpace).reverse.dropWhile pyIsSpace).reverse⟩

/-- Worker for `splitlinesPy`: `acc` holds the current line reversed; the fuel
argument only bounds the recursion (each step consumes at least one
character). -/
def splitlinesAux : Nat → List Char → List Char → List String
  | 0, _, _ => []
  | _ + 1, [], acc => if acc.isEmpty then [] else [⟨acc.reverse⟩]
  | fuel + 1, c :: rest, acc =>
    if c == crChar then
      match rest with
      | c2 :: rest2 =>
        if c2 == nlChar then ⟨acc.reverse⟩ :: splitlinesAux fuel rest2 []
        else ⟨acc.reverse⟩ :: splitlinesAux fuel rest []
      | [] => ⟨acc.reverse⟩ :: splitlinesAux fuel [] []
    else if isLineBound c then ⟨acc.reverse⟩ :: splitlinesAux fuel rest []
    else splitlinesAux fuel rest (c :: acc)

/-- Python's `str.splitlines()`, over the full `isLineBound` boundary set with
`\r\n` treated as a single boundary. -/
def splitlinesPy (s : String) : List String := splitlinesAux (s.data.length + 1) s.data []

/-- Worker for `pyReplace`; replaces leftmost non-overlapping occurrences,
with fuel bounding the recursion (the patterns used are nonempty). -/
def replaceAllAux (pat rep : List Char) : Nat → List Char → List Char
  | 0, l => l
  | _ + 1, [] => []
  | fuel + 1, c :: rest =>
    if pat.isPrefixOf (c :: rest) then
      rep ++ replaceAllAux pat rep fuel ((c :: rest).drop pat.length)
    else c :: replaceAllAux pat rep fuel rest

/-- Python's `str.replace(pat, rep)` (all occurrences, leftmost first). -/
def pyReplace (s pat rep : String) : String :=
  ⟨replaceAllAux pat.data rep.data (s.data.length + 1) s.data⟩

/-- Python's `str.lower()` on ASCII letters. -/
def lowerStr (s : String) : String := ⟨s.data.map Char.toLower⟩

namespace GH

/-- The `.NET` marker list of `convert_jenkinsfile.py` line 33. -/
def dotnet_markers : List String :=
  ["dotnet restore", "dotnet build", "dotnet test", "dotnet publish", "dotnet --info"]

/-- Line 30: `is_maven = 'mvn' in content or "stage('Build')" in content and
'mvn clean compile' in content` (Python `and` binds tighter than `or`). -/
def is_maven (t : String) : Bool :=
  containsSubstr t "mvn" ||
    (containsSubstr t "stage('Build')" && containsSubstr t "mvn clean compile")

/-- Line 34: any .NET marker occurs as a substring. -/
def is_dotnet (t : String) : Bool := dotnet_markers.any (fun m => containsSubstr t m)

/-- Technology stack value of line 38 (`'maven'`, `'dotnet'` or `None`). -/
inductive Stack
  | maven
  | dotnet
deriving DecidableEq

/-- Line 38: `stack = 'maven' if is_maven else ('dotnet' if is_dotnet else None)`. -/
def stack (t : String) : Option Stack :=
  if is_maven t then some Stack.maven
  else if is_dotnet t then some Stack.dotnet
  else none

/-- The toolchain kind of the spec's ToolchainSignature, read off `stack`. -/
inductive ToolKind
  | maven
  | dotnet
  | unknown
deriving DecidableEq

/-- Toolchain classification: the kind the detection of lines 29-38 infers. -/
def classify (t : String) : ToolKind :=
  match stack t with
  | some Stack.maven => ToolKind.maven
  | some Stack.dotnet => ToolKind.dotnet
  | none => ToolKind.unknown

/-- One GitHub-Actions step dictionary (`name` plus `uses`/`run`/`with`). -/
structure GhStep where
  name : String
  uses : Option String
  run : Option String
  withArgs : List (String × String)
deriving DecidableEq

/-- Checkout step of lines 44-47. -/
def checkoutStep : GhStep := ⟨"Checkout code", some "actions/checkout@v4", none, []⟩

/-- Java setup step of lines 54-61. -/
def setupJavaStep : GhStep :=
  ⟨"Set up JDK 11", some "actions/setup-java@v4", none,
    [("distribution", "temurin"), ("java-version", "11")]⟩

/-- .NET setup step of lines 64-70. -/
def setupDotnetStep : GhStep :=
  ⟨"Set up .NET", some "actions/setup-dotnet@v4", none, [("dotnet-version", "8.0.x")]⟩

/-- Restore step of lines 79-82. -/
def restoreStep : GhStep := ⟨"Restore packages", none, some "dotnet restore", []⟩

/-- Maven build step of lines 89-92. -/
def mavenBuildStep : GhStep := ⟨"Build the project", none, some "mvn clean compile", []⟩

/-- .NET build step of lines 83-86; `--no-restore` exactly when `dotnet
restore` occurs in the source text. -/
def dotnetBuildStep (restore : Bool) : GhStep :=
  ⟨"Build the project", none,
    some (if restore then "dotnet build --configuration Release --no-restore"
          else "dotnet build --configuration Release"), []⟩

/-- Maven test step of lines 104-107. -/
def mavenTestStep : GhStep := ⟨"Run tests", none, some "mvn test", []⟩

/-- .NET test step of lines 99-102. -/
def dotnetTestStep : GhStep := ⟨"Run tests", none, some "dotnet test --configuration Release", []⟩

/-- Deploy step of lines 114-117. -/
def deployStep (stk : Option Stack) : GhStep :=
  ⟨"Deploy the project", none,
    some (if stk ≠ some Stack.dotnet then "scp target/myapp.war user@server:/path/to/deploy"
          else "echo \"Add your .NET deploy command here (e.g., az webapp deploy, dotnet publish + rsync/scp)\""),
    []⟩

/-- Gate of line 43: checkout emitted. -/
def checkoutGate (t : String) : Bool :=
  containsSubstr t "stage('Checkout')" || containsSubstr t "checkout scm"

/-- Gate of line 75: build emitted. -/
def buildGate (t : String) : Bool :=
  containsSubstr t "stage('Build')" || containsSubstr t "mvn clean compile"

/-- Gate of line 97: test emitted. -/
def testGate (t : String) : Bool :=
  containsSubstr t "stage('Test')" || containsSubstr t "mvn test" ||
    containsSubstr t "dotnet test"

/-- Gate of line 112: deploy emitted. -/
def deployGate (t : String) : Bool :=
  containsSubstr t "stage('Deploy')" || containsSubstr t "scp"

/-- The step list built by `parse_jenkinsfile` (lines 24-117): checkout is
appended first, the toolchain setup is then inserted at index 0 when a stack
was detected, and build/restore, test and deploy steps are appended under
their gates. -/
def ghSteps (t : String) : List GhStep :=
  let s0 : List GhStep := if checkoutGate t then [checkoutStep] else []
  let s1 : List GhStep :=
    match stack t with
    | some Stack.maven => setupJavaStep :: s0
    | some Stack.dotnet => setupDotnetStep :: s0
    | none => s0
  let s2 : List GhStep :=
    s1 ++ (if buildGate t then
            match stack t with
            | some Stack.dotnet =>
                (if containsSubstr t "dotnet restore" then [restoreStep] else []) ++
                  [dotnetBuildStep (containsSubstr t "dotnet restore")]
            | _ => [mavenBuildStep]
          else [])
  let s3 : List GhStep :=
    s2 ++ (if testGate t then
            match stack t with
            | some Stack.dotnet => [dotnetTestStep]
            | _ => [mavenTestStep]
          else [])
  s3 ++ (if deployGate t then [deployStep (stack t)] else [])

/-- The full workflow dictionary returned by `parse_jenkinsfile` (lines 9-22
fix every field except the step list). -/
structure GhPipeline where
  name : String
  onPushBranches : List String
  runsOn : String
  steps : List GhStep
deriving DecidableEq

/-- `parse_jenkinsfile` of `convert_jenkinsfile.py`. -/
def parse_jenkinsfile (t : String) : GhPipeline :=
  ⟨"CI Workflow", ["main"], "ubuntu-latest", ghSteps t⟩

end GH

/-- Comment stripping `re.sub(r"//.*", "", s)` (identical in both tool files);
the Bool flag is "inside a comment", which a newline ends (`.` does not match
newlines). -/
def stripCommentsAux : Bool → List Char → List Char
  | _, [] => []
  | true, c :: rest =>
    if c == nlChar then c :: stripCommentsAux false rest else stripCommentsAux true rest
  | false, '/' :: '/' :: rest => stripCommentsAux true rest
  | false, c :: rest => c :: stripCommentsAux false rest

/-- `_strip_comments` of both tool files. -/
def strip_comments (s : String) : String := ⟨stripCommentsAux false s.data⟩

/-- Depth-counting brace scan shared by `_extract_block` and `parse_stages`:
depth starts at 1 after an opening brace; returns the content strictly before
the brace that closes depth 1, or `none` when depth never returns to 0 before
the end of the text.  `acc` holds the content scanned so far, reversed. -/
def braceScanAux : List Char → Nat → List Char → Option (List Char)
  | [], _, _ => none
  | c :: rest, depth, acc =>
    if c == lbrace then braceScanAux rest (depth + 1) (c :: acc)
    else if c == rbrace then
      if depth == 1 then some acc.reverse
      else braceScanAux rest (depth - 1) (c :: acc)
    else braceScanAux rest depth (c :: acc)

/-- Match the regex `NAME\s*\{` at the current position; on success returns
the remainder just after the opening brace. -/
def matchBlockAt (nameLit : List Char) (l : List Char) : Option (List Char) :=
  match dropLit nameLit l with
  | none => none
  | some r1 =>
    match r1.dropWhile pyIsSpace with
    | c :: r2 => if c == lbrace then some r2 else none
    | [] => none

/-- Leftmost search for `NAME\s*\{`, the `pattern.search` of `_extract_block`. -/
def findBlockStart (nameLit : List Char) : List Char → Option (List Char)
  | [] => none
  | c :: rest =>
    match matchBlockAt nameLit (c :: rest) with
    | some r => some r
    | none => findBlockStart nameLit rest

/-- `_extract_block(src, block_name)` (identical in both tool files): first
`NAME\s*\{` occurrence, then the depth-balanced scan; an unbalanced block
yields `none` exactly like an absent one. -/
def extract_block (src : String) (blockName : String) : Option String :=
  match findBlockStart blockName.data src.data with
  | none => none
  | some r => (braceScanAux r 1 []).map (fun l => (⟨l⟩ : String))

/-- Match the regex `LIT\s+['\"]([^'\"]+)['\"]` at the current position
(`sh`/`echo` step forms, `label`/`image` agent forms).  The quoted content is
nonempty and quote-free; the closing delimiter may be either quote kind. -/
def matchQuoted (lit : List Char) (l : List Char) : Option String :=
  match dropLit lit l with
  | none => none
  | some r1 =>
    match r1 with
    | c :: r2 =>
      if pyIsSpace c then
        match r2.dropWhile pyIsSpace with
        | q :: r3 =>
          if isQuote q then
            match r3.takeWhile (fun ch => !(isQuote ch)),
                  r3.dropWhile (fun ch => !(isQuote ch)) with
            | [], _ => none
            | _ :: _, [] => none
            | content, q2 :: _ => if isQuote q2 then some ⟨content⟩ else none
          else none
        | [] => none
      else none
    | [] => none

/-- Leftmost `re.search` driver for `matchQuoted` (agent `label`/`image`). -/
def searchQuotedArg (lit : List Char) : List Char → Option String
  | [] => none
  | c :: rest =>
    match matchQuoted lit (c :: rest) with
    | some v => some v
    | none => searchQuotedArg lit rest

/-- Agent variants produced by `parse_agent`. -/
inductive AgentSpec
  | any
  | label (name : String)
  | docker (image : String)
deriving DecidableEq

/-- `parse_agent` (identical in both tool files): `any` prefix, then `label`,
then `image`, and `any` as the silent fallback. -/
def parse_agent (block : String) : AgentSpec :=
  let text := pyStrip block
  if ("any" : String).data.isPrefixOf text.data then AgentSpec.any
  else
    match searchQuotedArg "label".data text.data with
    | some lab => AgentSpec.label lab
    | none =>
      match searchQuotedArg "image".data text.data with
      | some img => AgentSpec.docker img
      | none => AgentSpec.any

/-- Python-dict insertion: an existing key keeps its position and gets the new
value, a new key is appended. -/
def upsert (d : List (String × String)) (k v : String) : List (String × String) :=
  if d.any (fun kv => kv.1 == k) then
    d.map (fun kv => if kv.1 == k then (kv.1, v) else kv)
  else d ++ [(k, v)]

/-- Dictionary lookup on the insertion-ordered pair list. -/
def envLookup (d : List (String × String)) (k : String) : Option String :=
  (d.find? (fun kv => kv.1 == k)).map (fun kv => kv.2)

/-- Match `([A-Za-z_][A-Za-z0-9_]*)\s*=\s*['\"]([^'\"]+)['\"]` at the current
position; on success returns the key, the value and the remainder after the
match. -/
def assignMatch (l : List Char) : Option (String × String × List Char) :=
  match l with
  | [] => none
  | c :: rest =>
    if identStart c then
      let ident : List Char := c :: rest.takeWhile identCont
      match (rest.dropWhile identCont).dropWhile pyIsSpace with
      | e :: r2 =>
        if e == '=' then
          match r2.dropWhile pyIsSpace with
          | q :: r3 =>
            if isQuote q then
              match r3.takeWhile (fun ch => !(isQuote ch)),
                    r3.dropWhile (fun ch => !(isQuote ch)) with
              | [], _ => none
              | _ :: _, [] => none
              | v, q2 :: r4 => if isQuote q2 then some (⟨ident⟩, ⟨v⟩, r4) else none
            else none
          | [] => none
        else none
      | [] => none
    else none

/-- `re.finditer` driver for assignments: leftmost matches, resuming after
each match; fuel bounds the recursion (every step consumes a character). -/
def assignFindAux : Nat → List Char → List (String × String)
  | 0, _ => []
  | _ + 1, [] => []
  | fuel + 1, c :: rest =>
    match assignMatch (c :: rest) with
    | some kva => (kva.1, kva.2.1) :: assignFindAux fuel kva.2.2
    | none => assignFindAux fuel rest

/-- The `" ".join(block.splitlines())` flattening of `parse_environment`. -/
def env_flatten (block : String) : String := String.intercalate " " (splitlinesPy block)

/-- All assignment matches of the flattened environment block, in order. -/
def env_assignments (block : String) : List (String × String) :=
  assignFindAux ((env_flatten block).data.length + 1) (env_flatten block).data

/-- `parse_environment` (identical in both tool files): the assignment matches
accumulated into an insertion-ordered dictionary, later values overwriting
earlier ones. -/
def parse_environment (block : String) : List (String × String) :=
  (env_assignments block).foldl (fun d kv => upsert d kv.1 kv.2) []

/-- Typed view of one classified step line (the spec's StepSpec). -/
inductive StepClass
  | shell (cmd : String)
  | echoStep (msg : String)
  | unhandled (line : String)
deriving DecidableEq

/-- The `sh\s+['\"]([^'\"]+)['\"]` step form. -/
def matchSh (l : List Char) : Option String := matchQuoted "sh".data l

/-- The `echo\s+['\"]([^'\"]+)['\"]` step form. -/
def matchEcho (l : List Char) : Option String := matchQuoted "echo".data l

/-- Step classification shared by both `parse_steps` variants: the two
anchored `re.match` forms, with everything else falling through to
`unhandled` carrying the (stripped) line. -/
def stepClassify (line : String) : StepClass :=
  match matchSh line.data with
  | some cmd => StepClass.shell cmd
  | none =>
    match matchEcho line.data with
    | some msg => StepClass.echoStep msg
    | none => StepClass.unhandled line

/-- Match `stage\s*\(\s*['\"]([^'\"]+)['\"]\s*\)\s*\{` at the current
position; on success returns the stage name and the remainder just after the
opening brace (which is where `parse_stages` both scans the stage body and
resumes its `finditer`). -/
def matchStage (l : List Char) : Option (String × List Char) :=
  match dropLit "stage".data l with
  | none => none
  | some r1 =>
    match r1.dropWhile pyIsSpace with
    | c :: r2 =>
      if c == '(' then
        match r2.dropWhile pyIsSpace with
        | q :: r3 =>
          if isQuote q then
            match r3.takeWhile (fun ch => !(isQuote ch)),
                  r3.dropWhile (fun ch => !(isQuote ch)) with
            | [], _ => none
            | _ :: _, [] => none
            | nm, q2 :: r4 =>
              if isQuote q2 then
                match r4.dropWhile pyIsSpace with
                | p :: r5 =>
                  if p == ')' then
                    match r5.dropWhile pyIsSpace with
                    | b :: r6 => if b == lbrace then some (⟨nm⟩, r6) else none
                    | [] => none
                  else none
                | [] => none
              else none
          else none
        | [] => none
      else none
    | [] => none

/-- `re.finditer` driver for stage headers: leftmost matches resuming at each
match end, so nested stages are found too; fuel bounds the recursion. -/
def stageFindAux : Nat → List Char → List (String × List Char)
  | 0, _ => []
  | _ + 1, [] => []
  | fuel + 1, c :: rest =>
    match matchStage (c :: rest) with
    | some nma => (nma.1, nma.2) :: stageFindAux fuel nma.2
    | none => stageFindAux fuel rest

/-- All stage-header matches of a stages block, each with the text following
its opening brace. -/
def stageFind (cs : List Char) : List (String × List Char) :=
  stageFindAux (cs.length + 1) cs

/-- One parsed stage: its name and its step scripts. -/
structure StageDict where
  name : String
  steps : List String
deriving DecidableEq

/-- The parse failure both `parse_jenkinsfile` variants raise (`ValueError`
with the respective message); the spec's StructureError. -/
structure StructureError where
  msg : String
deriving DecidableEq

/-- The intermediate pipeline model both tool files build. -/
structure PipelineModel where
  agent : AgentSpec
  environment : List (String × String)
  stages : List StageDict
deriving DecidableEq

/-- Does the regex tail `\}\s*$` (MULTILINE) accept at this position: the
whitespace run that follows either reaches the end of the text or contains a
newline. -/
def closeOK (rest : List Char) : Bool :=
  (rest.dropWhile pyIsSpace).isEmpty || (rest.takeWhile pyIsSpace).contains nlChar

/-- Greedy body of `pipeline\s*\{([\s\S]*)\}\s*$`: everything before the LAST
closing brace whose tail satisfies `closeOK`. -/
def findLastClose : List Char → Option (List Char)
  | [] => none
  | c :: rest =>
    match findLastClose rest with
    | some body => some (c :: body)
    | none => if c == rbrace && closeOK rest then some [] else none

/-- Match the wrapper regex at the current position. -/
def pipeMatchAt (l : List Char) : Option (List Char) :=
  match dropLit "pipeline".data l with
  | none => none
  | some r1 =>
    match r1.dropWhile pyIsSpace with
    | c :: r2 => if c == lbrace then findLastClose r2 else none
    | [] => none

/-- `re.search` of the wrapper regex `pipeline\s*\{([\s\S]*)\}\s*$`: leftmost
start position whose full match succeeds. -/
def pipeSearchChars : List Char → Option (List Char)
  | [] => none
  | c :: rest =>
    match pipeMatchAt (c :: rest) with
    | some body => some body
    | none => pipeSearchChars rest

/-- Wrapper-block search on strings, returning the captured body. -/
def pipeSearch (s : String) : Option String :=
  (pipeSearchChars s.data).map (fun l => (⟨l⟩ : String))

/-- One rendered Azure step record: the script and its 60-character display
name, with the YAML string serialization of the surrounding code abstracted
to this payload. -/
structure RStep where
  script : String
  displayName : String
deriving DecidableEq

namespace Batch

/-- Rendering of one classified step line into the `script` value built by
`parse_steps` of `jenkins_batch_to_azuredevops.py` (lines 77-85); the
unhandled branch is `f"echo 'UNHANDLED: {line.replace(chr(39), chr(92)+chr(39))}'"`,
escaping each single quote with a backslash. -/
def renderStep : StepClass → String
  | StepClass.shell cmd => cmd
  | StepClass.echoStep m => "echo " ++ m
  | StepClass.unhandled line => "echo 'UNHANDLED: " ++ pyReplace line "'" "\\'" ++ "'"

/-- `parse_steps` of `jenkins_batch_to_azuredevops.py`. -/
def parse_steps (block : String) : List String :=
  (splitlinesPy block).filterMap (fun line =>
    let s := pyStrip line
    if s.data.isEmpty then none else some (renderStep (stepClassify s)))

/-- `parse_stages` of `jenkins_batch_to_azuredevops.py`: each stage-header
match is brace-scanned for its body (an unbalanced body degrades to the empty
string via the loop's `else`), the `steps` sub-block is extracted (defaulting
to empty) and classified. -/
def parse_stages (block : String) : List StageDict :=
  (stageFind block.data).map (fun nma =>
    let content : List Char := (braceScanAux nma.2 1 []).getD []
    let stepsBlock := (extract_block (⟨content⟩ : String) "steps").getD ""
    ⟨nma.1, parse_steps stepsBlock⟩)

/-- The `ValueError` message of line 118. -/
def structErr : StructureError :=
  ⟨"Only Declarative Jenkins pipelines are supported (no 'pipeline \x7b ... \x7d' block found)."⟩

/-- `parse_jenkinsfile` of `jenkins_batch_to_azuredevops.py`. -/
def parse_jenkinsfile (t : String) : Except StructureError PipelineModel :=
  match pipeSearch (strip_comments t) with
  | none => Except.error structErr
  | some body =>
    Except.ok
      ⟨parse_agent ((extract_block body "agent").getD "any"),
       parse_environment ((extract_block body "environment").getD ""),
       parse_stages ((extract_block body "stages").getD "")⟩

/-- The per-stage step filter of `model_to_azure_yaml` (lines 156-160): keep
nonempty stripped scripts, no per-stage fallback. -/
def stage_steps (scripts : List String) : List RStep :=
  scripts.filterMap (fun s =>
    let sc := pyStrip s
    if sc.data.isEmpty then none else some ⟨sc, ⟨sc.data.take 60⟩⟩)

/-- One rendered Azure job (`{"job": "job", "steps": ..., "pool": ...}`). -/
structure AzJob where
  job : String
  steps : List RStep
  pool : Option String
deriving DecidableEq

/-- One rendered Azure stage. -/
structure AzStage where
  stage : String
  jobs : List AzJob
deriving DecidableEq

/-- The structured Azure document before YAML serialization: the `variables`
entry (here `vars`), `stages`, and the flat fallback `steps` used only when
no stages exist. -/
structure AzureYaml where
  vars : List (String × String)
  stages : List AzStage
  steps : List String
deriving DecidableEq

/-- Pool guess of lines 139-152. -/
def pool_of (a : AgentSpec) : Option String :=
  match a with
  | AgentSpec.any => some "ubuntu-latest"
  | AgentSpec.label lab =>
      some (if containsSubstr (lowerStr lab) "windows" then "windows-latest"
            else if containsSubstr (lowerStr lab) "mac" || containsSubstr (lowerStr lab) "osx" then
              "macos-latest"
            else "ubuntu-latest")
  | AgentSpec.docker _ => some "ubuntu-latest"

/-- `model_to_azure_yaml` of `jenkins_batch_to_azuredevops.py`, up to YAML
serialization: one stage with one job per StageSpec, and the whole-pipeline
fallback step list exactly when no stages were parsed. -/
def model_to_azure_yaml (m : PipelineModel) : AzureYaml :=
  let pool := pool_of m.agent
  let azStages := m.stages.map (fun st => (⟨st.name, [⟨"job", stage_steps st.steps, pool⟩]⟩ : AzStage))
  if azStages.isEmpty then ⟨m.environment, [], ["echo No stages parsed from Jenkinsfile"]⟩
  else ⟨m.environment, azStages, []⟩

/-- Outcome of the conversion stage of `process_item` (lines 319-325): a
`StructureError` is caught, logged and turned into an error result for that
item only. -/
inductive ConvOutcome
  | converted
  | failed
deriving DecidableEq

/-- The conversion stage of `process_item` for one Jenkinsfile text. -/
def processConvert (t : String) : ConvOutcome :=
  match parse_jenkinsfile t with
  | Except.ok m =>
    let _ := model_to_azure_yaml m
    ConvOutcome.converted
  | Except.error _ => ConvOutcome.failed

/-- The batch loop of `main` (lines 380-383): every item is processed, each
independently of the others. -/
def runBatch (ts : List String) : List ConvOutcome := ts.map processConvert

end Batch

namespace AutoConv

/-- Rendering of one classified step line into the `script` value built by
`parse_steps` of `auto_convert_repo_to_ado_yaml.py` (lines 117-128); the
unhandled branch escapes each single quote with the quote-closing idiom
(quote, double-quote, quote, double-quote, quote) before wrapping the line in
a single-quoted `echo 'UNHANDLED: ...'`. -/
def renderStep : StepClass → String
  | StepClass.shell cmd => cmd
  | StepClass.echoStep m => "echo " ++ m
  | StepClass.unhandled line => "echo 'UNHANDLED: " ++ pyReplace line "'" "'\"'\"'" ++ "'"

/-- `parse_steps` of `auto_convert_repo_to_ado_yaml.py`. -/
def parse_steps (block : String) : List String :=
  (splitlinesPy block).filterMap (fun line =>
    let s := pyStrip line
    if s.data.isEmpty then none else some (renderStep (stepClassify s)))

/-- `parse_stages` of `auto_convert_repo_to_ado_yaml.py` (same structure as
the batch variant, differing only through `parse_steps`). -/
def parse_stages (block : String) : List StageDict :=
  (stageFind block.data).map (fun nma =>
    let content : List Char := (braceScanAux nma.2 1 []).getD []
    let stepsBlock := (extract_block (⟨content⟩ : String) "steps").getD ""
    ⟨nma.1, parse_steps stepsBlock⟩)

/-- The `ValueError` message of line 156. -/
def structErr : StructureError :=
  ⟨"Only Declarative pipelines supported (no 'pipeline \x7b ... \x7d' found)."⟩

/-- `parse_jenkinsfile` of `auto_convert_repo_to_ado_yaml.py`. -/
def parse_jenkinsfile (t : String) : Except StructureError PipelineModel :=
  match pipeSearch (strip_comments t) with
  | none => Except.error structErr
  | some body =>
    Except.ok
      ⟨parse_agent ((extract_block body "agent").getD "any"),
       parse_environment ((extract_block body "environment").getD ""),
       parse_stages ((extract_block body "stages").getD "")⟩

/-- The per-stage step list of `render_ado_yaml` (lines 198-209): nonempty
stripped scripts each rendered with their 60-character display name, and the
single fallback placeholder step when that list is empty. -/
def render_stage_steps (scripts : List String) : List RStep :=
  let sy := scripts.filterMap (fun s =>
    let sc := pyStrip s
    if sc.data.isEmpty then none else some ((⟨sc, ⟨sc.data.take 60⟩⟩ : RStep)))
  if sy.isEmpty then [⟨"echo No steps parsed", "Fallback"⟩] else sy

end AutoConv

/-- Shell-quote lexer state: outside quotes, inside single quotes, inside
double quotes. -/
inductive QS
  | plain
  | single
  | double
deriving DecidableEq

/-- POSIX-shell quote scanning: backslash escapes the next character outside
quotes and inside double quotes, and is literal inside single quotes; fuel
bounds the recursion. -/
def shellScanAux : Nat → QS → List Char → QS
  | 0, st, _ => st
  | _ + 1, st, [] => st
  | fuel + 1, QS.plain, c :: rest =>
    if c == squote then shellScanAux fuel QS.single rest
    else if c == dquote then shellScanAux fuel QS.double rest
    else if c == bslash then
      match rest with
      | [] => QS.plain
      | _ :: r => shellScanAux fuel QS.plain r
    else shellScanAux fuel QS.plain rest
  | fuel + 1, QS.single, c :: rest =>
    if c == squote then shellScanAux fuel QS.plain rest
    else shellScanAux fuel QS.single rest
  | fuel + 1, QS.double, c :: rest =>
    if c == dquote then shellScanAux fuel QS.plain rest
    else if c == bslash then
      match rest with
      | [] => QS.double
      | _ :: r => shellScanAux fuel QS.double r
    else shellScanAux fuel QS.double rest

/-- A command string is shell-quote closed when scanning it ends outside all
quotes: no unterminated quoted string. -/
def shellClosed (s : String) : Bool :=
  shellScanAux (s.data.length + 1) QS.plain s.data == QS.plain

/-- A stage name is literal-content for the stage regex: nonempty and free of
quote characters (the regex's `[^'\"]+` group admits exactly such names). -/
def nameOK (s : String) : Bool :=
  !s.data.isEmpty && s.data.all (fun c => !(isQuote c))

/-- A step command is literal-content that keeps the surrounding `steps`
block well formed: nonempty, quote-free (required by the `[^'\"]+` group),
brace-free (a brace would move the balanced-brace block boundaries),
parenthesis-free (the stage regex needs `(` after `stage`), and free of every
`str.splitlines` line boundary (a boundary would split the `sh` line into
several step lines). -/
def cmdOK (s : String) : Bool :=
  !s.data.isEmpty && s.data.all (fun c =>
    !(isQuote c) && !(c == '(') && !(c == lbrace) && !(c == rbrace) &&
      !(isLineBound c))

theorem isPrefixOf_of_append {a b l : List Char} (h : (a ++ b).isPrefixOf l = true) :
    a.isPrefixOf l = true := by
  induction a generalizing l with
  | nil => simp [List.isPrefixOf]
  | cons c cs ih =>
    cases l with
    | nil => simp [List.isPrefixOf] at h
    | cons x xs =>
      simp only [List.cons_append, List.isPrefixOf, Bool.and_eq_true] at h ⊢
      exact ⟨h.1, ih h.2⟩

theorem substrAux_of_append {a b : List Char} : ∀ {l : List Char},
    substrAux (a ++ b) l = true → substrAux a l = true := by
  intro l h
  induction l with
  | nil =>
    simp only [substrAux] at h ⊢
    exact isPrefixOf_of_append h
  | cons c rest ih =>
    simp only [substrAux, Bool.or_eq_true] at h ⊢
    rcases h with h | h
    · exact Or.inl (isPrefixOf_of_append h)
    · exact Or.inr (ih h)

theorem contains_mvn_of_mcc {t : String} (h : containsSubstr t "mvn clean compile" = true) :
    containsSubstr t "mvn" = true := by
  have hsplit : ("mvn clean compile" : String).data = ("mvn" : String).data ++ (" clean compile" : String).data := by decide
  unfold containsSubstr at h ⊢
  rw [hsplit] at h
  exact substrAux_of_append h

/-- C1: the claim asserts DotNet-wins priority; the code gives Maven priority.
This counterexample text contains the .NET marker `dotnet build`, so the claim
requires kind DotNet, but the classifier of `convert_jenkinsfile.py` (lines
29-38) returns Maven because `mvn` is also present. -/
theorem C1_counterexample :
    containsSubstr "mvn dotnet build" "dotnet build" = true ∧
    containsSubstr "mvn dotnet build" "mvn" = true ∧
    GH.classify "mvn dotnet build" = GH.ToolKind.maven ∧
    GH.ToolKind.maven ≠ GH.ToolKind.dotnet := by decide

/-- C1 (amended): the classifier applies the single Maven-wins priority rule
consistently: any text containing `mvn` is Maven (even when .NET markers also
occur); a .NET marker yields DotNet only when `mvn` is absent; otherwise the
kind is Unknown. -/
theorem C1_maven_priority (t : String) :
    GH.classify t =
      (if containsSubstr t "mvn" then GH.ToolKind.maven
       else if GH.is_dotnet t then GH.ToolKind.dotnet
       else GH.ToolKind.unknown) := by
  unfold GH.classify GH.stack GH.is_maven
  by_cases hm : containsSubstr t "mvn" = true
  · simp [hm]
  · have hm' : containsSubstr t "mvn" = false := by
      cases h : containsSubstr t "mvn" with
      | false => rfl
      | true => exact absurd h hm
    have hmc : containsSubstr t "mvn clean compile" = false := by
      cases h : containsSubstr t "mvn clean compile" with
      | false => rfl
      | true => exact absurd (contains_mvn_of_mcc h) hm
    cases hd : GH.is_dotnet t <;> simp [hm', hmc, hd]

/-- C2: the spec's quote-closing idiom is the intent (and is what
`auto_convert_repo_to_ado_yaml.py` implements, with a comment saying so), but
`parse_steps` of `jenkins_batch_to_azuredevops.py` escapes an embedded single
quote as backslash-quote, which POSIX shells treat as terminating the
single-quoted string: on the unhandled line `don't` the batch rendering is
left with an unterminated quote, while the auto-convert rendering is closed. -/
theorem C2_batch_escape_broken :
    Batch.parse_steps "don't" = ["echo 'UNHANDLED: don\\'t'"] ∧
    shellClosed "echo 'UNHANDLED: don\\'t'" = false ∧
    AutoConv.parse_steps "don't" = ["echo 'UNHANDLED: don'\"'\"'t'"] ∧
    shellClosed "echo 'UNHANDLED: don'\"'\"'t'" = true := by decide

/-- C6: classification is not case-insensitive.  Lower-casing the text `MVN`
changes the classified kind, refuting the claim at this input. -/
theorem C6_counterexample :
    GH.classify (lowerStr "MVN") ≠ GH.classify "MVN" := by decide

/-- C6 (amended): toolchain classification is case-sensitive: the markers
match only in their exact lower-case spelling, so `MVN` and `Dotnet Build`
are not detected while their lower-case forms are. -/
theorem C6_case_sensitive :
    GH.classify "mvn" = GH.ToolKind.maven ∧
    GH.classify "MVN" = GH.ToolKind.unknown ∧
    GH.classify "dotnet build" = GH.ToolKind.dotnet ∧
    GH.classify "Dotnet Build" = GH.ToolKind.unknown ∧
    lowerStr "MVN" = "mvn" ∧
    lowerStr "Dotnet Build" = "dotnet build" := by decide

/-- C10: a quoted step content containing a quote character does not fall
through to Unhandled: the pattern `sh\s+['\"]([^'\"]+)['\"]` matches with the
command truncated at the first embedded quote (the closing delimiter may be
either quote kind), so `sh 'a\"b'` classifies as a Shell step with command
`a`, refuting the claim at this input. -/
theorem C10_counterexample :
    stepClassify "sh 'a\"b'" = StepClass.shell "a" ∧
    StepClass.shell "a" ≠ StepClass.unhandled "sh 'a\"b'" := by decide

/-- C10 (amended): a step line with EMPTY quoted content does fall through to
the Unhandled placeholder carrying the whole line, but content containing a
quote character still matches, truncated at the first embedded quote. -/
theorem C10_truncation_and_empty :
    stepClassify "sh ''" = StepClass.unhandled "sh ''" ∧
    stepClassify "echo ''" = StepClass.unhandled "echo ''" ∧
    stepClassify "sh 'a\"b'" = StepClass.shell "a" ∧
    stepClassify "echo 'x\"y'" = StepClass.echoStep "x" ∧
    stepClassify "sh 'don't'" = StepClass.shell "don" := by decide

theorem find?_append_eq {α : Type} (p : α → Bool) (l1 l2 : List α) :
    (l1 ++ l2).find? p = match l1.find? p with
      | some x => some x
      | none => l2.find? p := by
  induction l1 with
  | nil => simp
  | cons a l ih =>
    by_cases h : p a = true
    · simp [List.find?_cons_of_pos, h]
    · have h' : p a = false := by
        cases hpa : p a with
        | false => rfl
        | true => exact absurd hpa h
      simp [List.find?_cons_of_neg, h', ih]

theorem find?_none_of_any_false {α : Type} {p : α → Bool} {l : List α}
    (h : l.any p = false) : l.find? p = none := by
  induction l with
  | nil => rfl
  | cons a l ih =>
    simp only [List.any_cons, Bool.or_eq_false_iff] at h
    simp [List.find?_cons_of_neg, h.1, ih h.2]

theorem lookup_map_replace_self {k v : String} : ∀ {d : List (String × String)},
    d.any (fun kv => kv.1 == k) = true →
    envLookup (d.map (fun kv => if kv.1 == k then (kv.1, v) else kv)) k = some v := by
  intro d h
  induction d with
  | nil => simp at h
  | cons kv d ih =>
    simp only [List.any_cons, Bool.or_eq_true] at h
    simp only [List.map_cons]
    by_cases h1 : (kv.1 == k) = true
    · rw [if_pos h1]
      unfold envLookup
      simp only [List.find?_cons]
      simp [h1]
    · rw [if_neg h1]
      have h1' : (kv.1 == k) = false := by
        cases hx : (kv.1 == k) with
        | false => rfl
        | true => exact absurd hx h1
      unfold envLookup at ih ⊢
      simp only [List.find?_cons, h1']
      exact ih (h.resolve_left h1)

theorem envLookup_upsert_self (d : List (String × String)) (k v : String) :
    envLookup (upsert d k v) k = some v := by
  unfold upsert
  by_cases h : d.any (fun kv => kv.1 == k) = true
  · simp only [h, if_true]
    exact lookup_map_replace_self h
  · have h' : d.any (fun kv => kv.1 == k) = false := by
      cases hx : d.any (fun kv => kv.1 == k) with
      | false => rfl
      | true => exact absurd hx h
    simp only [h', Bool.false_eq_true, if_false]
    unfold envLookup
    rw [find?_append_eq, find?_none_of_any_false h']
    simp

theorem lookup_map_replace_ne {k v q : String} (hne : (k == q) = false) :
    ∀ (d : List (String × String)),
    envLookup (d.map (fun kv => if kv.1 == k then (kv.1, v) else kv)) q = envLookup d q := by
  intro d
  induction d with
  | nil => rfl
  | cons kv d ih =>
    simp only [List.map_cons]
    unfold envLookup at ih ⊢
    by_cases h1 : (kv.1 == k) = true
    · have hk : kv.1 = k := by simpa using h1
      have hq : (kv.1 == q) = false := by
        rw [hk]
        exact hne
      rw [if_pos h1]
      simp only [List.find?_cons, hq]
      exact ih
    · rw [if_neg h1]
      by_cases h2 : (kv.1 == q) = true
      · simp only [List.find?_cons, h2]
      · have h2' : (kv.1 == q) = false := by
          cases hx : (kv.1 == q) with
          | false => rfl
          | true => exact absurd hx h2
        simp only [List.find?_cons, h2']
        exact ih

theorem envLookup_upsert_ne (d : List (String × String)) {k q : String} (v : String)
    (hne : (k == q) = false) : envLookup (upsert d k v) q = envLookup d q := by
  unfold upsert
  by_cases h : d.any (fun kv => kv.1 == k) = true
  · simp only [h, if_true]
    exact lookup_map_replace_ne hne d
  · have h' : d.any (fun kv => kv.1 == k) = false := by
      cases hx : d.any (fun kv => kv.1 == k) with
      | false => rfl
      | true => exact absurd hx h
    simp only [h', Bool.false_eq_true, if_false]
    unfold envLookup
    rw [find?_append_eq]
    cases hf : d.find? (fun kv => kv.1 == q) with
    | some x => simp
    | none => simp [List.find?, hne]

theorem foldl_upsert_lookup (ms : List (String × String)) :
    ∀ (d : List (String × String)) (k : String),
    envLookup (ms.foldl (fun acc kv => upsert acc kv.1 kv.2) d) k =
      match ms.reverse.find? (fun kv => kv.1 == k) with
      | some kv => some kv.2
      | none => envLookup d k := by
  induction ms with
  | nil => intro d k; simp
  | cons m ms ih =>
    intro d k
    simp only [List.foldl_cons, List.reverse_cons]
    rw [ih, find?_append_eq]
    cases hf : ms.reverse.find? (fun kv => kv.1 == k) with
    | some kv => simp
    | none =>
      by_cases hm : (m.1 == k) = true
      · have hk : m.1 = k := by simpa using hm
        simp only [List.find?, hm]
        rw [← hk]
        exact envLookup_upsert_self d m.1 m.2
      · have hm' : (m.1 == k) = false := by
          cases hx : (m.1 == k) with
          | false => rfl
          | true => exact absurd hx hm
        simp only [List.find?, hm']
        exact envLookup_upsert_ne d m.2 hm'

/-- C8: the two-assignment block parses to the expected mapping in insertion
order, and in general looking a key up in the parsed environment yields the
value of the LAST assignment of that identifier in the flattened block (later
occurrences overwrite earlier ones). -/
theorem C8_environment :
    parse_environment "A = 'x'\nB = \"y\"" = [("A", "x"), ("B", "y")] ∧
    ∀ (block k : String),
      envLookup (parse_environment block) k =
        ((env_assignments block).reverse.find? (fun kv => kv.1 == k)).map
          (fun kv => kv.2) := by
  constructor
  · decide
  · intro block k
    unfold parse_environment
    rw [foldl_upsert_lookup]
    cases h : (env_assignments block).reverse.find? (fun kv => kv.1 == k) with
    | some kv => simp
    | none => simp [envLookup]

/-- C3: a stage with zero renderable steps is NOT given a fallback step by
`model_to_azure_yaml` of `jenkins_batch_to_azuredevops.py`: rendering a model
whose single stage has no steps produces a stage whose job carries an empty
step list (the file's only fallback is the whole-pipeline one used when no
stages exist at all), refuting the claim for this renderer. -/
theorem C3_counterexample :
    (Batch.model_to_azure_yaml ⟨AgentSpec.any, [], [⟨"Build", []⟩]⟩).stages.map
      (fun st => st.jobs.map (fun j => j.steps)) = [[[]]] := by decide

/-- C3 (amended): `render_ado_yaml` of `auto_convert_repo_to_ado_yaml.py`
never renders an empty per-stage step list and emits exactly one fallback
placeholder step when a stage yields zero renderable steps, whereas
`model_to_azure_yaml` of `jenkins_batch_to_azuredevops.py` renders such a
stage with an empty step list. -/
theorem C3_per_stage_fallback (scripts : List String) :
    AutoConv.render_stage_steps scripts ≠ [] ∧
    ((∀ s ∈ scripts, pyStrip s = "") →
      AutoConv.render_stage_steps scripts = [⟨"echo No steps parsed", "Fallback"⟩] ∧
      Batch.stage_steps scripts = []) := by
  have hre : AutoConv.render_stage_steps scripts =
      (if (scripts.filterMap (fun s =>
          let sc := pyStrip s
          if sc.data.isEmpty then none else some ((⟨sc, ⟨sc.data.take 60⟩⟩ : RStep)))).isEmpty
       then [⟨"echo No steps parsed", "Fallback"⟩]
       else scripts.filterMap (fun s =>
          let sc := pyStrip s
          if sc.data.isEmpty then none else some ((⟨sc, ⟨sc.data.take 60⟩⟩ : RStep)))) := rfl
  constructor
  · rw [hre]
    by_cases h : (scripts.filterMap (fun s =>
        let sc := pyStrip s
        if sc.data.isEmpty then none else some ((⟨sc, ⟨sc.data.take 60⟩⟩ : RStep)))) = []
    · rw [if_pos (by rw [h]; rfl)]
      simp
    · rw [if_neg (fun hh => h (List.isEmpty_iff.mp hh))]
      exact h
  · intro h
    have hnil : scripts.filterMap (fun s =>
        let sc := pyStrip s
        if sc.data.isEmpty then none else some ((⟨sc, ⟨sc.data.take 60⟩⟩ : RStep))) = [] := by
      rw [List.filterMap_eq_nil_iff]
      intro s hs
      simp only [h s hs]
      rfl
    constructor
    · rw [hre, hnil]
      rfl
    · unfold Batch.stage_steps
      rw [List.filterMap_eq_nil_iff]
      intro s hs
      simp only [h s hs]
      rfl

theorem C3_per_stage_fallback_witness :
    AutoConv.render_stage_steps ["", "  "] = [⟨"echo No steps parsed", "Fallback"⟩] ∧
    Batch.stage_steps ["", "  "] = [] :=
  (C3_per_stage_fallback ["", "  "]).2 (by decide)

/-- C4: when the wrapper regex finds no `pipeline \x7b ... \x7d` block in the
comment-stripped text, both `parse_jenkinsfile` variants fail with their
StructureError, and in the batch driver that failure is confined to the one
item: the surrounding items of a batch are processed exactly as they would be
on their own. -/
theorem C4_structure_error (t : String) (h : pipeSearch (strip_comments t) = none) :
    Batch.parse_jenkinsfile t = Except.error Batch.structErr ∧
    AutoConv.parse_jenkinsfile t = Except.error AutoConv.structErr ∧
    ∀ pre post : List String,
      Batch.runBatch (pre ++ t :: post) =
        Batch.runBatch pre ++ Batch.ConvOutcome.failed :: Batch.runBatch post := by
  refine ⟨?_, ?_, ?_⟩
  · unfold Batch.parse_jenkinsfile
    rw [h]
  · unfold AutoConv.parse_jenkinsfile
    rw [h]
  · intro pre post
    unfold Batch.runBatch
    rw [List.map_append, List.map_cons]
    have hp : Batch.processConvert t = Batch.ConvOutcome.failed := by
      unfold Batch.processConvert Batch.parse_jenkinsfile
      rw [h]
    rw [hp]

theorem C4_structure_error_witness :
    pipeSearch (strip_comments "node \x7b sh 'make' \x7d") = none ∧
    Batch.parse_jenkinsfile "node \x7b sh 'make' \x7d" = Except.error Batch.structErr :=
  ⟨by decide, (C4_structure_error "node \x7b sh 'make' \x7d" (by decide)).1⟩

/-- C9: whenever the wrapper block is found, both `build` variants return a
model and never an error: each sub-block is extracted with its default
(`any`, empty, empty) when absent or brace-unbalanced, unrecognized agent
text silently defaults to Any, and every non-blank step line matching
neither `sh` nor `echo` becomes an Unhandled step rather than an error. -/
theorem C9_total_with_fallbacks (t : String) :
    (∀ body, pipeSearch (strip_comments t) = some body →
      Batch.parse_jenkinsfile t = Except.ok
        ⟨parse_agent ((extract_block body "agent").getD "any"),
         parse_environment ((extract_block body "environment").getD ""),
         Batch.parse_stages ((extract_block body "stages").getD "")⟩ ∧
      AutoConv.parse_jenkinsfile t = Except.ok
        ⟨parse_agent ((extract_block body "agent").getD "any"),
         parse_environment ((extract_block body "environment").getD ""),
         AutoConv.parse_stages ((extract_block body "stages").getD "")⟩) ∧
    (∀ block : String, ("any" : String).data.isPrefixOf (pyStrip block).data = false →
      searchQuotedArg ("label" : String).data (pyStrip block).data = none →
      searchQuotedArg ("image" : String).data (pyStrip block).data = none →
      parse_agent block = AgentSpec.any) ∧
    (parse_agent "any" = AgentSpec.any ∧ parse_environment "" = [] ∧
      Batch.parse_stages "" = [] ∧ AutoConv.parse_stages "" = []) ∧
    (∀ (src nm : String) (r : List Char), findBlockStart nm.data src.data = some r →
      braceScanAux r 1 [] = none → extract_block src nm = none) ∧
    (∀ line : String, matchSh line.data = none → matchEcho line.data = none →
      stepClassify line = StepClass.unhandled line) := by
  refine ⟨?_, ?_, ?_, ?_, ?_⟩
  · intro body hb
    constructor
    · unfold Batch.parse_jenkinsfile
      rw [hb]
    · unfold AutoConv.parse_jenkinsfile
      rw [hb]
  · intro block h1 h2 h3
    unfold parse_agent
    simp only [h1, Bool.false_eq_true, if_false, h2, h3]
  · refine ⟨by decide, by decide, by decide, by decide⟩
  · intro src nm r hfind hscan
    unfold extract_block
    rw [hfind]
    show (braceScanAux r 1 []).map (fun l => (⟨l⟩ : String)) = none
    rw [hscan]
    rfl
  · intro line h1 h2
    unfold stepClassify
    rw [h1, h2]

theorem C9_total_with_fallbacks_witness :
    pipeSearch (strip_comments "pipeline \x7b \x7d") = some " " ∧
    Batch.parse_jenkinsfile "pipeline \x7b \x7d" =
      Except.ok ⟨AgentSpec.any, [], []⟩ := by
  have hb : pipeSearch (strip_comments "pipeline \x7b \x7d") = some " " := by decide
  have h := ((C9_total_with_fallbacks "pipeline \x7b \x7d").1 " " hb).1
  refine ⟨hb, ?_⟩
  rw [h]
  exact congrArg Except.ok (by decide)

/-- C5: in the fixed-stage rendering of `convert_jenkinsfile.py`, the
concrete build and test commands are determined by the classified stack
(Maven: `mvn clean compile` and `mvn test`; DotNet: `dotnet build
--configuration Release` with `--no-restore` exactly when `dotnet restore`
occurs in the source, and `dotnet test --configuration Release`); the
toolchain setup step is first in the step list whenever a stack was
detected and never present when none was; and each canonical step is
emitted only when its gating marker or named stage occurs in the text. -/
theorem C5_fixed_stage_commands (t : String) :
    (GH.stack t = some GH.Stack.maven →
      (GH.ghSteps t).head? = some GH.setupJavaStep ∧
      (GH.buildGate t = true → GH.mavenBuildStep ∈ GH.ghSteps t) ∧
      (GH.testGate t = true → GH.mavenTestStep ∈ GH.ghSteps t)) ∧
    (GH.stack t = some GH.Stack.dotnet →
      (GH.ghSteps t).head? = some GH.setupDotnetStep ∧
      (GH.buildGate t = true →
        GH.dotnetBuildStep (containsSubstr t "dotnet restore") ∈ GH.ghSteps t ∧
        (containsSubstr t "dotnet restore" = true → GH.restoreStep ∈ GH.ghSteps t)) ∧
      (GH.testGate t = true → GH.dotnetTestStep ∈ GH.ghSteps t)) ∧
    (GH.stack t = none →
      ∀ s ∈ GH.ghSteps t, s ≠ GH.setupJavaStep ∧ s ≠ GH.setupDotnetStep) ∧
    (GH.buildGate t = false → ∀ s ∈ GH.ghSteps t, s.name ≠ "Build the project") ∧
    (GH.testGate t = false → ∀ s ∈ GH.ghSteps t, s.name ≠ "Run tests") ∧
    (GH.deployGate t = false → ∀ s ∈ GH.ghSteps t, s.name ≠ "Deploy the project") ∧
    (GH.checkoutGate t = false → ∀ s ∈ GH.ghSteps t, s.name ≠ "Checkout code") := by
  refine ⟨?_, ?_, ?_, ?_, ?_, ?_, ?_⟩
  · intro hst
    refine ⟨?_, ?_, ?_⟩
    · simp [GH.ghSteps, hst]
    · intro hb
      simp [GH.ghSteps, hst, hb]
    · intro ht
      simp [GH.ghSteps, hst, ht]
  · intro hst
    refine ⟨?_, ?_, ?_⟩
    · simp [GH.ghSteps, hst]
    · intro hb
      constructor
      · simp [GH.ghSteps, hst, hb]
      · intro hr
        simp [GH.ghSteps, hst, hb, hr]
    · intro ht
      simp [GH.ghSteps, hst, ht]
  · intro hst
    by_cases h1 : GH.checkoutGate t <;> by_cases h2 : GH.buildGate t <;>
      by_cases h3 : GH.testGate t <;> by_cases h4 : GH.deployGate t <;>
      simp [GH.ghSteps, hst, h1, h2, h3, h4, List.forall_mem_cons] <;>
      refine ⟨by decide, by decide⟩
  · intro hg
    rcases hstk : GH.stack t with - | stk
    · by_cases h1 : GH.checkoutGate t <;> by_cases h3 : GH.testGate t <;>
        by_cases h4 : GH.deployGate t <;>
        simp [GH.ghSteps, hstk, hg, h1, h3, h4, List.forall_mem_cons, GH.checkoutStep,
          GH.mavenTestStep, GH.deployStep, GH.dotnetTestStep]
    · cases stk <;>
        by_cases h1 : GH.checkoutGate t <;> by_cases h3 : GH.testGate t <;>
        by_cases h4 : GH.deployGate t <;>
        simp [GH.ghSteps, hstk, hg, h1, h3, h4, List.forall_mem_cons, GH.checkoutStep,
          GH.setupJavaStep, GH.setupDotnetStep, GH.mavenTestStep, GH.dotnetTestStep,
          GH.deployStep]
  · intro hg
    rcases hstk : GH.stack t with - | stk
    · by_cases h1 : GH.checkoutGate t <;> by_cases h2 : GH.buildGate t <;>
        by_cases h4 : GH.deployGate t <;>
        simp [GH.ghSteps, hstk, hg, h1, h2, h4, List.forall_mem_cons, GH.checkoutStep,
          GH.mavenBuildStep, GH.deployStep]
    · cases stk <;>
        by_cases h1 : GH.checkoutGate t <;> by_cases h2 : GH.buildGate t <;>
        by_cases h4 : GH.deployGate t <;>
        by_cases h5 : containsSubstr t "dotnet restore" <;>
        simp [GH.ghSteps, hstk, hg, h1, h2, h4, h5, List.forall_mem_cons, GH.checkoutStep,
          GH.setupJavaStep, GH.setupDotnetStep, GH.mavenBuildStep, GH.dotnetBuildStep,
          GH.restoreStep, GH.deployStep]
  · intro hg
    rcases hstk : GH.stack t with - | stk
    · by_cases h1 : GH.checkoutGate t <;> by_cases h2 : GH.buildGate t <;>
        by_cases h3 : GH.testGate t <;>
        simp [GH.ghSteps, hstk, hg, h1, h2, h3, List.forall_mem_cons, GH.checkoutStep,
          GH.mavenBuildStep, GH.mavenTestStep, GH.dotnetTestStep]
    · cases stk <;>
        by_cases h1 : GH.checkoutGate t <;> by_cases h2 : GH.buildGate t <;>
        by_cases h3 : GH.testGate t <;>
        by_cases h5 : containsSubstr t "dotnet restore" <;>
        simp [GH.ghSteps, hstk, hg, h1, h2, h3, h5, List.forall_mem_cons, GH.checkoutStep,
          GH.setupJavaStep, GH.setupDotnetStep, GH.mavenBuildStep, GH.dotnetBuildStep,
          GH.restoreStep, GH.mavenTestStep, GH.dotnetTestStep]
  · intro hg
    rcases hstk : GH.stack t with - | stk
    · by_cases h2 : GH.buildGate t <;> by_cases h3 : GH.testGate t <;>
        by_cases h4 : GH.deployGate t <;>
        simp [GH.ghSteps, hstk, hg, h2, h3, h4, List.forall_mem_cons,
          GH.mavenBuildStep, GH.mavenTestStep, GH.dotnetTestStep, GH.deployStep]
    · cases stk <;>
        by_cases h2 : GH.buildGate t <;> by_cases h3 : GH.testGate t <;>
        by_cases h4 : GH.deployGate t <;>
        by_cases h5 : containsSubstr t "dotnet restore" <;>
        simp [GH.ghSteps, hstk, hg, h2, h3, h4, h5, List.forall_mem_cons,
          GH.setupJavaStep, GH.setupDotnetStep, GH.mavenBuildStep, GH.dotnetBuildStep,
          GH.restoreStep, GH.mavenTestStep, GH.dotnetTestStep, GH.deployStep]

theorem C5_fixed_stage_commands_witness :
    GH.stack "dotnet restore stage('Build') stage('Test')" = some GH.Stack.dotnet ∧
    (GH.ghSteps "dotnet restore stage('Build') stage('Test')").head? =
      some GH.setupDotnetStep ∧
    GH.dotnetBuildStep true ∈ GH.ghSteps "dotnet restore stage('Build') stage('Test')" ∧
    GH.dotnetTestStep ∈ GH.ghSteps "dotnet restore stage('Build') stage('Test')" := by
  have hst : GH.stack "dotnet restore stage('Build') stage('Test')" = some GH.Stack.dotnet := by
    decide
  have hb : GH.buildGate "dotnet restore stage('Build') stage('Test')" = true := by decide
  have ht : GH.testGate "dotnet restore stage('Build') stage('Test')" = true := by decide
  have hr : containsSubstr "dotnet restore stage('Build') stage('Test')" "dotnet restore" = true := by
    decide
  have h := (C5_fixed_stage_commands "dotnet restore stage('Build') stage('Test')").2.1 hst
  refine ⟨hst, h.1, ?_, h.2.2 ht⟩
  have hbm := (h.2.1 hb).1
  rw [hr] at hbm
  exact hbm
theorem dropLit_not_mem {c : Char} : ∀ {p l r : List Char},
    dropLit p l = some r → c ∉ l → c ∉ r := by
  intro p
  induction p with
  | nil =>
    intro l r h hc
    simp only [dropLit, Option.some.injEq] at h
    exact h ▸ hc
  | cons q ps ih =>
    intro l r h hc
    cases l with
    | nil => simp [dropLit] at h
    | cons x xs =>
      simp only [dropLit] at h
      by_cases hx : (x == q) = true
      · rw [if_pos hx] at h
        exact ih h (fun hm => hc (List.mem_cons_of_mem x hm))
      · rw [if_neg hx] at h
        exact absurd h (by simp)

theorem dropWhile_not_mem {c : Char} {w : Char → Bool} : ∀ {l : List Char},
    c ∉ l → c ∉ l.dropWhile w := by
  intro l
  induction l with
  | nil => intro h; simp
  | cons x xs ih =>
    intro h
    rw [List.dropWhile_cons]
    by_cases hx : w x = true
    · rw [if_pos hx]
      exact ih (fun hm => h (List.mem_cons_of_mem x hm))
    · rw [if_neg hx]
      exact h

theorem matchStage_none_of_no_paren : ∀ {l : List Char}, '(' ∉ l → matchStage l = none := by
  intro l h
  unfold matchStage
  cases hd : dropLit ("stage" : String).data l with
  | none => rfl
  | some r1 =>
    have h1 : '(' ∉ r1 := dropLit_not_mem hd h
    have h2 : '(' ∉ r1.dropWhile pyIsSpace := dropWhile_not_mem h1
    cases hw : r1.dropWhile pyIsSpace with
    | nil => simp [hw]
    | cons c r2 =>
      rw [hw] at h2
      have hcp : c ≠ '(' := fun hc => h2 (hc ▸ List.mem_cons_self c r2)
      have hcne : (c == '(') = false := beq_eq_false_iff_ne.mpr hcp
      simp [hw, hcne]

theorem stageFindAux_nil_of_no_paren : ∀ (fuel : Nat) {l : List Char},
    '(' ∉ l → stageFindAux fuel l = [] := by
  intro fuel
  induction fuel with
  | zero => intro l _; rfl
  | succ f ih =>
    intro l h
    cases l with
    | nil => rfl
    | cons c rest =>
      unfold stageFindAux
      rw [matchStage_none_of_no_paren h]
      exact ih (fun hm => h (List.mem_cons_of_mem c hm))

theorem dropLit_append_self : ∀ (p l : List Char), dropLit p (p ++ l) = some l := by
  intro p l
  induction p with
  | nil => rfl
  | cons c cs ih => simp [dropLit, ih]

theorem takeWhile_append_of_all {w : Char → Bool} : ∀ {xs : List Char} (ys : List Char),
    (∀ c ∈ xs, w c = true) → (xs ++ ys).takeWhile w = xs ++ ys.takeWhile w := by
  intro xs
  induction xs with
  | nil => intro ys _; rfl
  | cons x xs ih =>
    intro ys h
    rw [List.cons_append, List.takeWhile_cons, if_pos (h x (List.mem_cons_self x xs)),
      ih ys (fun c hc => h c (List.mem_cons_of_mem x hc))]
    rfl

theorem dropWhile_append_of_all {w : Char → Bool} : ∀ {xs : List Char} (ys : List Char),
    (∀ c ∈ xs, w c = true) → (xs ++ ys).dropWhile w = ys.dropWhile w := by
  intro xs
  induction xs with
  | nil => intro ys _; rfl
  | cons x xs ih =>
    intro ys h
    rw [List.cons_append, List.dropWhile_cons, if_pos (h x (List.mem_cons_self x xs))]
    exact ih ys (fun c hc => h c (List.mem_cons_of_mem x hc))

theorem braceScanAux_append_no_brace : ∀ {xs : List Char} (ys : List Char) (d : Nat)
    (acc : List Char), (∀ c ∈ xs, (c == lbrace) = false ∧ (c == rbrace) = false) →
    braceScanAux (xs ++ ys) d acc = braceScanAux ys d (xs.reverse ++ acc) := by
  intro xs
  induction xs with
  | nil => intro ys d acc _; rfl
  | cons x xs ih =>
    intro ys d acc h
    have hx := h x (List.mem_cons_self x xs)
    have hstep : braceScanAux ((x :: xs) ++ ys) d acc = braceScanAux (xs ++ ys) d (x :: acc) := by
      rw [List.cons_append]
      simp only [braceScanAux, hx.1, hx.2, Bool.false_eq_true, if_false]
    rw [hstep, ih ys d (x :: acc) (fun c hc => h c (List.mem_cons_of_mem x hc)),
      List.reverse_cons, List.append_assoc, List.singleton_append]

theorem splitlinesAux_noline : ∀ (l : List Char) (fuel : Nat) (acc : List Char),
    l.length < fuel →
    (∀ c ∈ l, isLineBound c = false) →
    (acc = [] → l ≠ []) →
    splitlinesAux fuel l acc = [⟨acc.reverse ++ l⟩] := by
  intro l
  induction l with
  | nil =>
    intro fuel acc hf h hne
    cases fuel with
    | zero => omega
    | succ f =>
      have hacc : acc.isEmpty = false := by
        cases acc with
        | nil => exact absurd rfl (hne rfl)
        | cons a as => rfl
      simp only [splitlinesAux, hacc, Bool.false_eq_true, if_false, List.append_nil]
  | cons c rest ih =>
    intro fuel acc hf h hne
    cases fuel with
    | zero => omega
    | succ f =>
      have hc := h c (List.mem_cons_self c rest)
      have hcr : (c == crChar) = false := by
        cases hx : (c == crChar) with
        | false => rfl
        | true =>
          have hc2 : c = crChar := by simpa using hx
          rw [hc2] at hc
          exact absurd hc (by decide)
      have hrest : rest.length < f := by
        simp only [List.length_cons] at hf
        omega
      simp only [splitlinesAux, hcr, hc, Bool.false_eq_true, if_false]
      rw [ih f (c :: acc) hrest (fun d hd => h d (List.mem_cons_of_mem c hd))
        (fun h0 => (List.cons_ne_nil c acc h0).elim)]
      simp

theorem splitlinesPy_single (s : String) (hne : s.data ≠ [])
    (h : ∀ c ∈ s.data, isLineBound c = false) :
    splitlinesPy s = [s] := by
  unfold splitlinesPy
  rw [splitlinesAux_noline s.data (s.data.length + 1) [] (by omega) h (fun _ => hne)]
  rfl

theorem pyStrip_mk (l : List Char) :
    pyStrip ⟨l⟩ = ⟨((l.dropWhile pyIsSpace).reverse.dropWhile pyIsSpace).reverse⟩ := rfl

theorem pyStrip_wrap {a b : Char} (M : List Char)
    (ha : pyIsSpace a = false) (hb : pyIsSpace b = false) :
    pyStrip ⟨' ' :: a :: (M ++ [b, ' '])⟩ = ⟨a :: (M ++ [b])⟩ := by
  rw [pyStrip_mk]
  rw [List.dropWhile_cons, if_pos (by decide), List.dropWhile_cons, if_neg (by simp [ha])]
  have h2 : (a :: (M ++ [b, ' '])).reverse = ' ' :: b :: (M.reverse ++ [a]) := by
    simp
  rw [h2]
  rw [List.dropWhile_cons, if_pos (by decide), List.dropWhile_cons, if_neg (by simp [hb])]
  have h3 : (b :: (M.reverse ++ [a])).reverse = a :: (M ++ [b]) := by
    simp
  rw [h3]

theorem matchSh_eval (cmd : String) (hne : cmd.data ≠ [])
    (hq : ∀ c ∈ cmd.data, isQuote c = false) :
    matchSh ('s' :: 'h' :: ' ' :: squote :: (cmd.data ++ [squote])) = some cmd := by
  have hq' : ∀ c ∈ cmd.data, (fun ch => !(isQuote ch)) c = true :=
    fun c hc => by simp [hq c hc]
  have ht : (cmd.data ++ [squote]).takeWhile (fun ch => !(isQuote ch)) = cmd.data := by
    rw [takeWhile_append_of_all [squote] hq',
      show ([squote].takeWhile (fun ch => !(isQuote ch))) = [] from rfl, List.append_nil]
  have hd : (cmd.data ++ [squote]).dropWhile (fun ch => !(isQuote ch)) = [squote] := by
    rw [dropWhile_append_of_all [squote] hq']
    rfl
  show (match (cmd.data ++ [squote]).takeWhile (fun ch => !(isQuote ch)),
          (cmd.data ++ [squote]).dropWhile (fun ch => !(isQuote ch)) with
        | [], _ => none
        | _ :: _, [] => none
        | content, q2 :: _ =>
          if isQuote q2 then some (⟨content⟩ : String) else none) = some cmd
  rw [ht, hd]
  cases hcc : cmd.data with
  | nil => exact absurd hcc hne
  | cons c0 cs =>
    show some (⟨c0 :: cs⟩ : String) = some cmd
    rw [← hcc]

theorem matchStage_eval (X : String) (tail : List Char) (hne : X.data ≠ [])
    (hq : ∀ c ∈ X.data, isQuote c = false) :
    matchStage ('s' :: 't' :: 'a' :: 'g' :: 'e' :: '(' :: squote ::
        (X.data ++ (squote :: ')' :: ' ' :: lbrace :: tail))) = some (X, tail) := by
  have hq' : ∀ c ∈ X.data, (fun ch => !(isQuote ch)) c = true :=
    fun c hc => by simp [hq c hc]
  have ht : (X.data ++ (squote :: ')' :: ' ' :: lbrace :: tail)).takeWhile
      (fun ch => !(isQuote ch)) = X.data := by
    rw [takeWhile_append_of_all _ hq', List.takeWhile_cons,
      if_neg (by simp [isQuote]), List.append_nil]
  have hd : (X.data ++ (squote :: ')' :: ' ' :: lbrace :: tail)).dropWhile
      (fun ch => !(isQuote ch)) = squote :: ')' :: ' ' :: lbrace :: tail := by
    rw [dropWhile_append_of_all _ hq', List.dropWhile_cons, if_neg (by simp [isQuote])]
  show (match (X.data ++ (squote :: ')' :: ' ' :: lbrace :: tail)).takeWhile
            (fun ch => !(isQuote ch)),
          (X.data ++ (squote :: ')' :: ' ' :: lbrace :: tail)).dropWhile
            (fun ch => !(isQuote ch)) with
        | [], _ => none
        | _ :: _, [] => none
        | nm, q2 :: r4 =>
          if isQuote q2 then
            match r4.dropWhile pyIsSpace with
            | p :: r5 =>
              if p == ')' then
                match r5.dropWhile pyIsSpace with
                | b :: r6 => if b == lbrace then some ((⟨nm⟩ : String), r6) else none
                | [] => none
              else none
            | [] => none
          else none) = some (X, tail)
  rw [ht, hd]
  cases hcc : X.data with
  | nil => exact absurd hcc hne
  | cons c0 cs =>
    show some ((⟨c0 :: cs⟩ : String), tail) = some (X, tail)
    rw [← hcc]

theorem braceStep_open (rest : List Char) (d : Nat) (acc : List Char) :
    braceScanAux (lbrace :: rest) d acc = braceScanAux rest (d + 1) (lbrace :: acc) := rfl

theorem braceStep_close2 (rest : List Char) (acc : List Char) :
    braceScanAux (rbrace :: rest) 2 acc = braceScanAux rest 1 (rbrace :: acc) := rfl

theorem braceStep_close1 (rest : List Char) (acc : List Char) :
    braceScanAux (rbrace :: rest) 1 acc = some acc.reverse := rfl

theorem braceStep_other {c : Char} (h1 : (c == lbrace) = false) (h2 : (c == rbrace) = false)
    (rest : List Char) (d : Nat) (acc : List Char) :
    braceScanAux (c :: rest) d acc = braceScanAux rest d (c :: acc) := by
  simp only [braceScanAux, h1, h2, Bool.false_eq_true, if_false]

theorem mem_concat3 {c : Char} {A X B : List Char} (h : c ∈ A ++ (X ++ B)) :
    c ∈ A ∨ c ∈ X ∨ c ∈ B := by
  rcases List.mem_append.mp h with h1 | h2
  · exact Or.inl h1
  · rcases List.mem_append.mp h2 with h3 | h4
    · exact Or.inr (Or.inl h3)
    · exact Or.inr (Or.inr h4)

theorem stepLine_strip (cmd : String) :
    pyStrip ⟨' ' :: 's' :: 'h' :: ' ' :: squote :: (cmd.data ++ [squote, ' '])⟩ =
      ⟨'s' :: 'h' :: ' ' :: squote :: (cmd.data ++ [squote])⟩ := by
  have h : pyStrip ⟨' ' :: 's' :: (('h' :: ' ' :: squote :: cmd.data) ++ [squote, ' '])⟩ =
      ⟨'s' :: (('h' :: ' ' :: squote :: cmd.data) ++ [squote])⟩ :=
    pyStrip_wrap ('h' :: ' ' :: squote :: cmd.data) (by decide) (by decide)
  exact h

theorem stepClassify_sh (cmd : String) (hne : cmd.data ≠ [])
    (hq : ∀ c ∈ cmd.data, isQuote c = false) :
    stepClassify ⟨'s' :: 'h' :: ' ' :: squote :: (cmd.data ++ [squote])⟩ =
      StepClass.shell cmd := by
  unfold stepClassify
  rw [show (⟨'s' :: 'h' :: ' ' :: squote :: (cmd.data ++ [squote])⟩ : String).data =
      's' :: 'h' :: ' ' :: squote :: (cmd.data ++ [squote]) from rfl]
  rw [matchSh_eval cmd hne hq]

theorem stepLine_nolines (cmd : String)
    (hnl : ∀ c ∈ cmd.data, isLineBound c = false) :
    ∀ c ∈ (⟨' ' :: 's' :: 'h' :: ' ' :: squote :: (cmd.data ++ [squote, ' '])⟩ : String).data,
      isLineBound c = false := by
  intro c hc
  have hc2 : c ∈ [' ', 's', 'h', ' ', squote] ++ (cmd.data ++ [squote, ' ']) := hc
  rcases mem_concat3 hc2 with h1 | h2 | h3
  · exact (by decide :
      ∀ x ∈ [' ', 's', 'h', ' ', squote], isLineBound x = false) c h1
  · exact hnl c h2
  · exact (by decide :
      ∀ x ∈ [squote, ' '], isLineBound x = false) c h3

theorem batch_parse_steps_sh (cmd : String) (hne : cmd.data ≠ [])
    (hq : ∀ c ∈ cmd.data, isQuote c = false)
    (hnl : ∀ c ∈ cmd.data, isLineBound c = false) :
    Batch.parse_steps ⟨' ' :: 's' :: 'h' :: ' ' :: squote :: (cmd.data ++ [squote, ' '])⟩ =
      [cmd] := by
  unfold Batch.parse_steps
  rw [splitlinesPy_single _ (by simp) (stepLine_nolines cmd hnl)]
  simp only [List.filterMap_cons, stepLine_strip cmd, stepClassify_sh cmd hne hq]
  rfl

theorem auto_parse_steps_sh (cmd : String) (hne : cmd.data ≠ [])
    (hq : ∀ c ∈ cmd.data, isQuote c = false)
    (hnl : ∀ c ∈ cmd.data, isLineBound c = false) :
    AutoConv.parse_steps ⟨' ' :: 's' :: 'h' :: ' ' :: squote :: (cmd.data ++ [squote, ' '])⟩ =
      [cmd] := by
  unfold AutoConv.parse_steps
  rw [splitlinesPy_single _ (by simp) (stepLine_nolines cmd hnl)]
  simp only [List.filterMap_cons, stepLine_strip cmd, stepClassify_sh cmd hne hq]
  rfl

theorem strData_append (s t : String) : (s ++ t).data = s.data ++ t.data := rfl

theorem stageFindAux_step_some (fuel : Nat) (c : Char) (rest : List Char)
    (nm : String) (after : List Char) (h : matchStage (c :: rest) = some (nm, after)) :
    stageFindAux (fuel + 1) (c :: rest) = (nm, after) :: stageFindAux fuel after := by
  simp only [stageFindAux, h]

theorem stageFind_fragment (X cmd : String) (hXne : X.data ≠ [])
    (hXq : ∀ c ∈ X.data, isQuote c = false)
    (hcp : ∀ c ∈ cmd.data, (c == '(') = false) :
    stageFind ('s' :: 't' :: 'a' :: 'g' :: 'e' :: '(' :: squote ::
        (X.data ++ (squote :: ')' :: ' ' :: lbrace ::
          (' ' :: 's' :: 't' :: 'e' :: 'p' :: 's' :: ' ' :: lbrace ::
            ' ' :: 's' :: 'h' :: ' ' :: squote ::
              (cmd.data ++ (squote :: ' ' :: rbrace :: ' ' :: rbrace :: [])))))) =
      [(X, ' ' :: 's' :: 't' :: 'e' :: 'p' :: 's' :: ' ' :: lbrace ::
            ' ' :: 's' :: 'h' :: ' ' :: squote ::
              (cmd.data ++ (squote :: ' ' :: rbrace :: ' ' :: rbrace :: [])))] := by
  have hnp : '(' ∉ (' ' :: 's' :: 't' :: 'e' :: 'p' :: 's' :: ' ' :: lbrace ::
      ' ' :: 's' :: 'h' :: ' ' :: squote ::
        (cmd.data ++ (squote :: ' ' :: rbrace :: ' ' :: rbrace :: []))) := by
    intro hm
    have hm2 : '(' ∈ [' ', 's', 't', 'e', 'p', 's', ' ', lbrace, ' ', 's', 'h', ' ', squote] ++
        (cmd.data ++ [squote, ' ', rbrace, ' ', rbrace]) := hm
    rcases mem_concat3 hm2 with h1 | h2 | h3
    · exact absurd h1 (by decide)
    · have := hcp '(' h2
      simp at this
    · exact absurd h3 (by decide)
  have hmatch := matchStage_eval X
    (' ' :: 's' :: 't' :: 'e' :: 'p' :: 's' :: ' ' :: lbrace ::
      ' ' :: 's' :: 'h' :: ' ' :: squote ::
        (cmd.data ++ (squote :: ' ' :: rbrace :: ' ' :: rbrace :: []))) hXne hXq
  have hnil : ∀ fuel, stageFindAux fuel
      (' ' :: 's' :: 't' :: 'e' :: 'p' :: 's' :: ' ' :: lbrace ::
        ' ' :: 's' :: 'h' :: ' ' :: squote ::
          (cmd.data ++ (squote :: ' ' :: rbrace :: ' ' :: rbrace :: []))) = [] :=
    fun fuel => stageFindAux_nil_of_no_paren fuel hnp
  unfold stageFind
  simp only [List.length_cons]
  rw [stageFindAux_step_some _ _ _ _ _ hmatch, hnil]

theorem brace_content (cmd : String)
    (hcb : ∀ c ∈ cmd.data, (c == lbrace) = false ∧ (c == rbrace) = false) :
    braceScanAux (' ' :: 's' :: 't' :: 'e' :: 'p' :: 's' :: ' ' :: lbrace ::
        ' ' :: 's' :: 'h' :: ' ' :: squote ::
          (cmd.data ++ (squote :: ' ' :: rbrace :: ' ' :: rbrace :: []))) 1 [] =
      some ([' ', 's', 't', 'e', 'p', 's', ' ', lbrace, ' ', 's', 'h', ' ', squote] ++
        (cmd.data ++ [squote, ' ', rbrace, ' '])) := by
  show braceScanAux ([' ', 's', 't', 'e', 'p', 's', ' '] ++ (lbrace ::
      ([' ', 's', 'h', ' ', squote] ++
        (cmd.data ++ (squote :: ' ' :: rbrace :: ' ' :: rbrace :: []))))) 1 [] = _
  rw [braceScanAux_append_no_brace _ _ _ (by decide)]
  rw [braceStep_open]
  rw [braceScanAux_append_no_brace _ _ _ (by decide)]
  rw [braceScanAux_append_no_brace _ _ _ hcb]
  rw [braceStep_other (by decide) (by decide)]
  rw [braceStep_other (by decide) (by decide)]
  rw [braceStep_close2]
  rw [braceStep_other (by decide) (by decide)]
  rw [braceStep_close1]
  simp

theorem extract_steps (cmd : String)
    (hcb : ∀ c ∈ cmd.data, (c == lbrace) = false ∧ (c == rbrace) = false) :
    extract_block ⟨[' ', 's', 't', 'e', 'p', 's', ' ', lbrace, ' ', 's', 'h', ' ', squote] ++
        (cmd.data ++ [squote, ' ', rbrace, ' '])⟩ "steps" =
      some ⟨' ' :: 's' :: 'h' :: ' ' :: squote :: (cmd.data ++ [squote, ' '])⟩ := by
  unfold extract_block
  have hfb : findBlockStart ("steps" : String).data
      ([' ', 's', 't', 'e', 'p', 's', ' ', lbrace, ' ', 's', 'h', ' ', squote] ++
        (cmd.data ++ [squote, ' ', rbrace, ' '])) =
      some ([' ', 's', 'h', ' ', squote] ++ (cmd.data ++ [squote, ' ', rbrace, ' '])) := rfl
  rw [hfb]
  show (braceScanAux ([' ', 's', 'h', ' ', squote] ++
      (cmd.data ++ [squote, ' ', rbrace, ' '])) 1 []).map (fun l => (⟨l⟩ : String)) = _
  rw [braceScanAux_append_no_brace _ _ _ (by decide)]
  rw [braceScanAux_append_no_brace _ _ _ hcb]
  show (braceScanAux (squote :: ' ' :: rbrace :: (' ' :: [])) 1 _).map (fun l => (⟨l⟩ : String)) = _
  rw [braceStep_other (by decide) (by decide)]
  rw [braceStep_other (by decide) (by decide)]
  rw [braceStep_close1]
  simp

/-- C7: parsing a stages block of the exact form `stage('X') \x7b steps \x7b sh 'cmd' \x7d \x7d`
yields, in both tool files, exactly one StageSpec whose name is the verbatim
quoted literal and whose single step is the Shell step with the verbatim
command; the classified form of the `sh` line is a Shell step. -/
theorem C7_stage_parse (X cmd : String) (hX : nameOK X = true) (hc : cmdOK cmd = true) :
    Batch.parse_stages ("stage('" ++ X ++ "') \x7b steps \x7b sh '" ++ cmd ++ "' \x7d \x7d") =
      [⟨X, [cmd]⟩] ∧
    AutoConv.parse_stages ("stage('" ++ X ++ "') \x7b steps \x7b sh '" ++ cmd ++ "' \x7d \x7d") =
      [⟨X, [cmd]⟩] ∧
    stepClassify ("sh '" ++ cmd ++ "'") = StepClass.shell cmd := by
  simp only [nameOK, Bool.and_eq_true] at hX
  obtain ⟨hXe, hXall⟩ := hX
  have hXne : X.data ≠ [] := by
    intro h0
    rw [h0] at hXe
    simp at hXe
  have hXq : ∀ c ∈ X.data, isQuote c = false := by
    intro c hm
    have h2 := List.all_eq_true.mp hXall c hm
    simpa using h2
  simp only [cmdOK, Bool.and_eq_true] at hc
  obtain ⟨hce, hcall⟩ := hc
  have hcne : cmd.data ≠ [] := by
    intro h0
    rw [h0] at hce
    simp at hce
  have hfacts : ∀ c ∈ cmd.data, isQuote c = false ∧ (c == '(') = false ∧
      (c == lbrace) = false ∧ (c == rbrace) = false ∧ isLineBound c = false := by
    intro c hm
    have h2 := List.all_eq_true.mp hcall c hm
    simp only [Bool.and_eq_true, Bool.not_eq_true'] at h2
    tauto
  have hcq : ∀ c ∈ cmd.data, isQuote c = false := fun c hm => (hfacts c hm).1
  have hcp : ∀ c ∈ cmd.data, (c == '(') = false := fun c hm => (hfacts c hm).2.1
  have hcb : ∀ c ∈ cmd.data, (c == lbrace) = false ∧ (c == rbrace) = false :=
    fun c hm => ⟨(hfacts c hm).2.2.1, (hfacts c hm).2.2.2.1⟩
  have hcnl : ∀ c ∈ cmd.data, isLineBound c = false :=
    fun c hm => (hfacts c hm).2.2.2.2
  have hF : ("stage('" ++ X ++ "') \x7b steps \x7b sh '" ++ cmd ++ "' \x7d \x7d").data =
      's' :: 't' :: 'a' :: 'g' :: 'e' :: '(' :: squote ::
        (X.data ++ (squote :: ')' :: ' ' :: lbrace ::
          (' ' :: 's' :: 't' :: 'e' :: 'p' :: 's' :: ' ' :: lbrace ::
            ' ' :: 's' :: 'h' :: ' ' :: squote ::
              (cmd.data ++ (squote :: ' ' :: rbrace :: ' ' :: rbrace :: []))))) := by
    rw [strData_append, strData_append, strData_append, strData_append]
    rw [show ("stage('" : String).data = ['s', 't', 'a', 'g', 'e', '(', squote] from rfl,
      show ("') \x7b steps \x7b sh '" : String).data =
        [squote, ')', ' ', lbrace, ' ', 's', 't', 'e', 'p', 's', ' ', lbrace,
          ' ', 's', 'h', ' ', squote] from rfl,
      show ("' \x7d \x7d" : String).data = [squote, ' ', rbrace, ' ', rbrace] from rfl]
    simp
  refine ⟨?_, ?_, ?_⟩
  · unfold Batch.parse_stages
    rw [hF, stageFind_fragment X cmd hXne hXq hcp]
    simp only [List.map_cons, List.map_nil]
    rw [brace_content cmd hcb]
    simp only [Option.getD_some]
    rw [extract_steps cmd hcb]
    simp only [Option.getD_some]
    rw [batch_parse_steps_sh cmd hcne hcq hcnl]
  · unfold AutoConv.parse_stages
    rw [hF, stageFind_fragment X cmd hXne hXq hcp]
    simp only [List.map_cons, List.map_nil]
    rw [brace_content cmd hcb]
    simp only [Option.getD_some]
    rw [extract_steps cmd hcb]
    simp only [Option.getD_some]
    rw [auto_parse_steps_sh cmd hcne hcq hcnl]
  · have hd : ("sh '" ++ cmd ++ "'").data =
        's' :: 'h' :: ' ' :: squote :: (cmd.data ++ [squote]) := by
      rw [strData_append, strData_append]
      rw [show ("sh '" : String).data = ['s', 'h', ' ', squote] from rfl,
        show ("'" : String).data = [squote] from rfl]
      simp
    unfold stepClassify
    rw [hd, matchSh_eval cmd hcne hcq]

theorem C7_stage_parse_witness :
    nameOK "X" = true ∧ cmdOK "cmd" = true ∧
    Batch.parse_stages "stage('X') \x7b steps \x7b sh 'cmd' \x7d \x7d" = [⟨"X", ["cmd"]⟩] ∧
    AutoConv.parse_stages "stage('X') \x7b steps \x7b sh 'cmd' \x7d \x7d" = [⟨"X", ["cmd"]⟩] := by
  have h := C7_stage_parse "X" "cmd" (by decide) (by decide)
  exact ⟨by decide, by decide, h.1, h.2.1⟩
